import Mathlib

/-!
Verification of the psst repository's core components against its specification.

The identity codec, cache and Diffie-Hellman key agreement live in
`psst-core` source files that are not part of the checked-out tree (only their
test suites are), so those data types and operations are modelled from the
specification document; the equalizer (`psst-core/src/audio/equalizer.rs`) and
the CLI front-end (`psst-cli/src/main.rs`) are embedded directly from source.
-/

namespace Psst

/-- Size of the `u128` value space: ids are 128-bit integers. -/
def u128Size : Nat := 2 ^ 128

/-- Modelled from the spec: the type tag of an `ItemId` (§3 data model) —
Track, Podcast/Episode, LocalFile, Unknown. The implementation file
`psst-core/src/item_id.rs` is missing from the tree. -/
inductive ItemIdType where
  | Track
  | Podcast
  | LocalFile
  | Unknown
deriving DecidableEq, Repr

/-- Modelled from the spec: an `ItemId` is a 128-bit integer plus a type tag
(§3). The `u128` value is represented as a `Nat` kept below `2 ^ 128`. -/
structure ItemId where
  id : Nat
  id_type : ItemIdType
deriving DecidableEq, Repr

/-- Fixed-width big-endian digit expansion: `digitsBE b k v` is the `k`-digit
base-`b` representation of `v % b ^ k`, most significant digit first. -/
def digitsBE (b : Nat) : Nat → Nat → List Nat
  | 0, _ => []
  | k + 1, v => digitsBE b k (v / b) ++ [v % b]

/-- Modelled from the spec: base62 alphabet `0-9`, `a-z`, `A-Z`, whose zero
character is ASCII `'0'` (§4.1, §8). -/
def base62Char (d : Nat) : Char :=
  if d < 10 then Char.ofNat (48 + d)
  else if d < 36 then Char.ofNat (87 + d)
  else Char.ofNat (29 + d)

/-- Modelled from the spec: base62 digit value of a character; only
alphanumerics are accepted (§4.1). -/
def base62Digit (c : Char) : Option Nat :=
  if 48 ≤ c.toNat ∧ c.toNat ≤ 57 then some (c.toNat - 48)
  else if 97 ≤ c.toNat ∧ c.toNat ≤ 122 then some (c.toNat - 87)
  else if 65 ≤ c.toNat ∧ c.toNat ≤ 90 then some (c.toNat - 29)
  else none

/-- Modelled from the spec: base16 alphabet `0-9`, `a-f`, lowercase on
encode (§4.1). -/
def base16Char (d : Nat) : Char :=
  if d < 10 then Char.ofNat (48 + d) else Char.ofNat (87 + d)

/-- Modelled from the spec: base16 digit value of a character; input decode is
case-insensitive, anything outside `[0-9a-fA-F]` is rejected (§4.1). -/
def base16Digit (c : Char) : Option Nat :=
  if 48 ≤ c.toNat ∧ c.toNat ≤ 57 then some (c.toNat - 48)
  else if 97 ≤ c.toNat ∧ c.toNat ≤ 102 then some (c.toNat - 87)
  else if 65 ≤ c.toNat ∧ c.toNat ≤ 70 then some (c.toNat - 55)
  else none

/-- Modelled from the spec: the decode accumulator loop shared by base16 and
base62 (§4.1); one invalid character fails the whole decode, and the `u128`
accumulator arithmetic wraps modulo `2 ^ 128`. -/
def decodeDigits (digitOf : Char → Option Nat) (b : Nat) : Nat → List Char → Option Nat
  | acc, [] => some acc
  | acc, c :: cs =>
    match digitOf c with
    | none => none
    | some d => decodeDigits digitOf b ((acc * b + d) % u128Size) cs

/-- Modelled from the spec: `to_base62` always produces a fixed-width
22-character string (§4.1). -/
def ItemId.to_base62 (i : ItemId) : String :=
  ⟨(digitsBE 62 22 i.id).map base62Char⟩

/-- Modelled from the spec: base62 decode accepts only alphanumerics, fails on
any other character, and decodes the empty string to the zero id (§4.1). -/
def ItemId.from_base62 (s : String) (t : ItemIdType) : Option ItemId :=
  (decodeDigits base62Digit 62 0 s.data).map fun v => ⟨v, t⟩

/-- Modelled from the spec: `to_base16` produces a fixed 32-hex-character,
zero-padded, lowercase string (§4.1). -/
def ItemId.to_base16 (i : ItemId) : String :=
  ⟨(digitsBE 16 32 i.id).map base16Char⟩

/-- Modelled from the spec: base16 decode, case-insensitive, failing on any
character outside the hex alphabet (§4.1). -/
def ItemId.from_base16 (s : String) (t : ItemIdType) : Option ItemId :=
  (decodeDigits base16Digit 16 0 s.data).map fun v => ⟨v, t⟩

/-- Modelled from the spec: `to_raw` is the 16-byte big-endian buffer of the
128-bit id (§4.1). Bytes are modelled as naturals below 256. -/
def ItemId.to_raw (i : ItemId) : List Nat :=
  digitsBE 256 16 i.id

/-- Modelled from the spec: raw decode requires exactly 16 bytes, big-endian;
any other length fails (§4.1). -/
def ItemId.from_raw (bytes : List Nat) (t : ItemIdType) : Option ItemId :=
  if bytes.length = 16 then
    some ⟨(bytes.foldl (fun a d => a * 256 + d) 0) % u128Size, t⟩
  else
    none

theorem string_data_mk (l : List Char) : (String.mk l).data = l := rfl

theorem digitsBE_length (b : Nat) : ∀ k v, (digitsBE b k v).length = k := by
  intro k
  induction k with
  | zero => intro v; rfl
  | succ k ih => intro v; simp [digitsBE, ih]

theorem digitsBE_lt (b : Nat) (hb : 0 < b) :
    ∀ k v, ∀ d ∈ digitsBE b k v, d < b := by
  intro k
  induction k with
  | zero => intro v d hd; simp [digitsBE] at hd
  | succ k ih =>
    intro v d hd
    simp only [digitsBE, List.mem_append, List.mem_singleton] at hd
    rcases hd with hd | hd
    · exact ih _ d hd
    · subst hd; exact Nat.mod_lt _ hb

theorem mod_pow_succ_eq (v b k : Nat) :
    v % b ^ (k + 1) = b * ((v / b) % b ^ k) + v % b := by
  rcases Nat.eq_zero_or_pos b with hb | hb
  · subst hb; simp
  have h1 : v % (b * b ^ k) / b = v / b % b ^ k := Nat.mod_mul_right_div_self v b (b ^ k)
  have h2 : v % (b * b ^ k) % b = v % b :=
    Nat.mod_mod_of_dvd v ⟨b ^ k, rfl⟩
  have h3 : b * (v % (b * b ^ k) / b) + v % (b * b ^ k) % b = v % (b * b ^ k) :=
    Nat.div_add_mod _ b
  have hpow : b ^ (k + 1) = b * b ^ k := by rw [pow_succ, Nat.mul_comm]
  rw [hpow, ← h1, ← h2, h3]

theorem foldl_digitsBE (b : Nat) :
    ∀ k v a, List.foldl (fun x d => x * b + d) a (digitsBE b k v) =
      a * b ^ k + v % b ^ k := by
  intro k
  induction k with
  | zero => intro v a; simp [digitsBE, Nat.mod_one]
  | succ k ih =>
    intro v a
    simp only [digitsBE, List.foldl_append, List.foldl_cons, List.foldl_nil, ih]
    rw [mod_pow_succ_eq v b k]
    ring

theorem decodeDigits_map (digitOf : Char → Option Nat) (charOf : Nat → Char)
    (b : Nat) (l : List Nat) (hl : ∀ d ∈ l, digitOf (charOf d) = some d) :
    ∀ a, decodeDigits digitOf b (a % u128Size) (l.map charOf) =
      some ((List.foldl (fun x d => x * b + d) a l) % u128Size) := by
  induction l with
  | nil => intro a; simp [decodeDigits]
  | cons d l ih =>
    intro a
    have hd : digitOf (charOf d) = some d := hl d (List.mem_cons_self d l)
    have hmod : (a % u128Size * b + d) % u128Size = (a * b + d) % u128Size :=
      Nat.ModEq.add_right d (Nat.ModEq.mul_right b (Nat.mod_modEq a u128Size))
    simp only [List.map_cons, decodeDigits, hd, hmod]
    have := ih (fun x hx => hl x (List.mem_cons_of_mem d hx)) (a * b + d)
    simpa [List.foldl_cons] using this

theorem base62Digit_char (d : Nat) (hd : d < 62) :
    base62Digit (base62Char d) = some d := by
  revert d hd; decide

theorem base16Digit_char (d : Nat) (hd : d < 16) :
    base16Digit (base16Char d) = some d := by
  revert d hd; decide

theorem decode_encode_base62 (v : Nat) (hv : v < u128Size) :
    decodeDigits base62Digit 62 0 ((digitsBE 62 22 v).map base62Char) = some v := by
  have hvalid : ∀ d ∈ digitsBE 62 22 v, base62Digit (base62Char d) = some d :=
    fun d hd => base62Digit_char d (digitsBE_lt 62 (by decide) 22 v d hd)
  have h := decodeDigits_map base62Digit base62Char 62 (digitsBE 62 22 v) hvalid 0
  rw [Nat.zero_mod] at h
  rw [h, foldl_digitsBE]
  have hlt : u128Size < 62 ^ 22 := by decide
  have : v % 62 ^ 22 = v := Nat.mod_eq_of_lt (lt_trans hv hlt)
  rw [this]
  simp [Nat.mod_eq_of_lt hv]

theorem base62Digit_none_iff (c : Char) : base62Digit c = none ↔ c.isAlphanum = false := by
  have hn : Char.toNat c = c.val.toBitVec.toNat := rfl
  have halpha : c.isAlphanum = false ↔
      ¬((65 ≤ c.val.toBitVec.toNat ∧ c.val.toBitVec.toNat ≤ 90) ∨
        (97 ≤ c.val.toBitVec.toNat ∧ c.val.toBitVec.toNat ≤ 122) ∨
        (48 ≤ c.val.toBitVec.toNat ∧ c.val.toBitVec.toNat ≤ 57)) := by
    simp only [Char.isAlphanum, Char.isAlpha, Char.isDigit, Char.isUpper, Char.isLower,
      Bool.or_eq_false_iff, Bool.and_eq_false_iff, decide_eq_false_iff_not, not_le,
      UInt32.le_def, BitVec.le_def,
      show (UInt32.toBitVec 48).toNat = 48 from rfl,
      show (UInt32.toBitVec 57).toNat = 57 from rfl,
      show (UInt32.toBitVec 65).toNat = 65 from rfl,
      show (UInt32.toBitVec 90).toNat = 90 from rfl,
      show (UInt32.toBitVec 97).toNat = 97 from rfl,
      show (UInt32.toBitVec 122).toNat = 122 from rfl]
    omega
  rw [halpha]
  unfold base62Digit
  rw [hn]
  split
  · simp; omega
  · split
    · simp; omega
    · split
      · simp; omega
      · simp; omega

theorem decodeDigits_none (digitOf : Char → Option Nat) (b : Nat) :
    ∀ (l : List Char) (acc : Nat), (∃ c ∈ l, digitOf c = none) →
      decodeDigits digitOf b acc l = none := by
  intro l
  induction l with
  | nil => intro acc h; simp at h
  | cons c cs ih =>
    intro acc h
    rcases h with ⟨c', hc', hnone⟩
    rcases List.mem_cons.mp hc' with h1 | h1
    · subst h1; simp [decodeDigits, hnone]
    · cases hdc : digitOf c with
      | none => simp [decodeDigits, hdc]
      | some d =>
        simp only [decodeDigits, hdc]
        exact ih _ ⟨c', h1, hnone⟩

theorem decode_encode_base16 (v : Nat) (hv : v < u128Size) :
    decodeDigits base16Digit 16 0 ((digitsBE 16 32 v).map base16Char) = some v := by
  have hvalid : ∀ d ∈ digitsBE 16 32 v, base16Digit (base16Char d) = some d :=
    fun d hd => base16Digit_char d (digitsBE_lt 16 (by decide) 32 v d hd)
  have h := decodeDigits_map base16Digit base16Char 16 (digitsBE 16 32 v) hvalid 0
  rw [Nat.zero_mod] at h
  rw [h, foldl_digitsBE]
  have hpow : (16 : Nat) ^ 32 = u128Size := by decide
  rw [hpow]
  have : v % u128Size = v := Nat.mod_eq_of_lt hv
  simp [this]

theorem decode_encode_raw (v : Nat) (hv : v < u128Size) (t : ItemIdType) :
    ItemId.from_raw (ItemId.to_raw ⟨v, t⟩) t = some ⟨v, t⟩ := by
  unfold ItemId.from_raw ItemId.to_raw
  rw [if_pos (digitsBE_length 256 16 v), foldl_digitsBE]
  have hpow : (256 : Nat) ^ 16 = u128Size := by decide
  rw [hpow]
  simp [Nat.mod_eq_of_lt hv]

/-- C1: identity codec round-trip — for every 128-bit value `v` and type tag
`t`, decoding the encoding of `ItemId v t` recovers it, in base62, base16 and
raw 16-byte big-endian forms alike. -/
theorem itemId_codec_roundtrip (v : Nat) (t : ItemIdType) (hv : v < u128Size) :
    ItemId.from_base62 (ItemId.to_base62 ⟨v, t⟩) t = some ⟨v, t⟩ ∧
    ItemId.from_base16 (ItemId.to_base16 ⟨v, t⟩) t = some ⟨v, t⟩ ∧
    ItemId.from_raw (ItemId.to_raw ⟨v, t⟩) t = some ⟨v, t⟩ := by
  refine ⟨?_, ?_, decode_encode_raw v hv t⟩
  · unfold ItemId.from_base62 ItemId.to_base62
    rw [string_data_mk, decode_encode_base62 v hv]
    rfl
  · unfold ItemId.from_base16 ItemId.to_base16
    rw [string_data_mk, decode_encode_base16 v hv]
    rfl

/-- Witness for C1 at the concrete value 123456789 with tag Track. -/
theorem itemId_codec_roundtrip_witness :
    (123456789 < u128Size) ∧
    (ItemId.from_base62 (ItemId.to_base62 ⟨123456789, ItemIdType.Track⟩) ItemIdType.Track =
        some ⟨123456789, ItemIdType.Track⟩ ∧
      ItemId.from_base16 (ItemId.to_base16 ⟨123456789, ItemIdType.Track⟩) ItemIdType.Track =
        some ⟨123456789, ItemIdType.Track⟩ ∧
      ItemId.from_raw (ItemId.to_raw ⟨123456789, ItemIdType.Track⟩) ItemIdType.Track =
        some ⟨123456789, ItemIdType.Track⟩) :=
  ⟨by decide, itemId_codec_roundtrip 123456789 ItemIdType.Track (by decide)⟩

/-- C7: `to_base62` always yields exactly 22 characters and `to_base16`
exactly 32; value 0 encodes in base62 as 22 copies of the alphabet's zero
character `'0'`, and the maximum 128-bit value encodes in base16 as 32 `f`
characters. -/
theorem itemId_encode_lengths :
    (∀ (v : Nat) (t : ItemIdType), (ItemId.to_base62 ⟨v, t⟩).length = 22) ∧
    (∀ (v : Nat) (t : ItemIdType), (ItemId.to_base16 ⟨v, t⟩).length = 32) ∧
    ItemId.to_base62 ⟨0, ItemIdType.Track⟩ = "0000000000000000000000" ∧
    ItemId.to_base16 ⟨u128Size - 1, ItemIdType.Track⟩ = "ffffffffffffffffffffffffffffffff" := by
  refine ⟨?_, ?_, by decide, by decide⟩
  · intro v t
    show ((digitsBE 62 22 v).map base62Char).length = 22
    rw [List.length_map, digitsBE_length]
  · intro v t
    show ((digitsBE 16 32 v).map base16Char).length = 32
    rw [List.length_map, digitsBE_length]

/-- Modelled from the spec: splitting a character list on `':'`, mirroring the
behaviour of splitting a string on the colon separator (§4.1 URI parsing);
splitting the empty string yields one empty segment. -/
def splitOnColon : List Char → List (List Char)
  | [] => [[]]
  | c :: cs =>
    match splitOnColon cs with
    | [] => [[c]]
    | s :: ss => if c = ':' then [] :: s :: ss else (c :: s) :: ss

/-- Modelled from the spec: recognized type tokens map to Track and
`"episode"` to Podcast; anything else maps to Unknown (§4.1). -/
def tagOfToken (tok : List Char) : ItemIdType :=
  if tok = "track".data then ItemIdType.Track
  else if tok = "episode".data then ItemIdType.Podcast
  else ItemIdType.Unknown

/-- Modelled from the spec: URI parsing over the already-split segments — the
final segment is the base62 id, the segment before it identifies the type, and
the final segment is always run through base62 decode (§4.1). -/
def fromUriParts (parts : List (List Char)) : Option ItemId :=
  let gid := parts.getLastD []
  let tyToken := if 2 ≤ parts.length then parts.getD (parts.length - 2) [] else []
  ItemId.from_base62 ⟨gid⟩ (tagOfToken tyToken)

/-- Modelled from the spec: `from_uri` splits on `':'` and parses the
resulting segments (§4.1). -/
def ItemId.from_uri (uri : String) : Option ItemId :=
  fromUriParts (splitOnColon uri.data)

theorem fromUriParts_concat (pre : List (List Char)) (ty seg : List Char) :
    fromUriParts (pre ++ [ty, seg]) = ItemId.from_base62 ⟨seg⟩ (tagOfToken ty) := by
  have hlast : (pre ++ [ty, seg]).getLastD [] = seg := by
    rw [show pre ++ [ty, seg] = (pre ++ [ty]) ++ [seg] by simp]
    exact List.getLastD_concat _ _ _
  have hlen : (pre ++ [ty, seg]).length = pre.length + 2 := by simp
  have hty : (pre ++ [ty, seg]).getD pre.length [] = ty := by
    rw [List.getD_eq_getElem?_getD, List.getElem?_append_right (Nat.le_refl _)]
    simp
  simp only [fromUriParts, hlast, hlen]
  rw [if_pos (by omega : 2 ≤ pre.length + 2)]
  rw [show pre.length + 2 - 2 = pre.length by omega, hty]

/-- C8: `from_uri` splits on `':'` and takes the final segment as the base62
id; a `"track"` type token yields a Track id, `"episode"` a Podcast id, any
other token Unknown; the final segment is always base62-decoded, so a final
segment with a non-alphanumeric character yields no value, while an empty
final segment succeeds as the zero id. -/
theorem from_uri_spec :
    (∀ (pre : List (List Char)) (seg : List Char),
      fromUriParts (pre ++ ["track".data, seg]) =
        ItemId.from_base62 ⟨seg⟩ ItemIdType.Track) ∧
    (∀ (pre : List (List Char)) (seg : List Char),
      fromUriParts (pre ++ ["episode".data, seg]) =
        ItemId.from_base62 ⟨seg⟩ ItemIdType.Podcast) ∧
    (∀ (pre : List (List Char)) (ty seg : List Char),
      ty ≠ "track".data → ty ≠ "episode".data →
      fromUriParts (pre ++ [ty, seg]) = ItemId.from_base62 ⟨seg⟩ ItemIdType.Unknown) ∧
    (∀ uri : String,
      (∃ c ∈ (splitOnColon uri.data).getLastD [], c.isAlphanum = false) →
      ItemId.from_uri uri = none) ∧
    (∀ uri : String, (splitOnColon uri.data).getLastD [] = [] →
      ∃ t, ItemId.from_uri uri = some ⟨0, t⟩) := by
  refine ⟨?_, ?_, ?_, ?_, ?_⟩
  · intro pre seg
    rw [fromUriParts_concat]
    rfl
  · intro pre seg
    rw [fromUriParts_concat]
    rfl
  · intro pre ty seg h1 h2
    rw [fromUriParts_concat]
    unfold tagOfToken
    rw [if_neg h1, if_neg h2]
  · intro uri ⟨c, hc, hcal⟩
    unfold ItemId.from_uri fromUriParts ItemId.from_base62
    simp only [string_data_mk]
    rw [decodeDigits_none base62Digit 62 _ 0 ⟨c, hc, (base62Digit_none_iff c).mpr hcal⟩]
    rfl
  · intro uri h
    unfold ItemId.from_uri fromUriParts ItemId.from_base62
    simp only [string_data_mk, h, decodeDigits]
    exact ⟨_, rfl⟩

/-- Witness for C8 at concrete URIs and segment lists. -/
theorem from_uri_spec_witness :
    (fromUriParts (["spotify".data] ++ ["track".data, "abc".data]) =
        ItemId.from_base62 ⟨"abc".data⟩ ItemIdType.Track) ∧
    (fromUriParts (["spotify".data] ++ ["episode".data, "abc".data]) =
        ItemId.from_base62 ⟨"abc".data⟩ ItemIdType.Podcast) ∧
    (fromUriParts (["spotify".data] ++ ["unknown".data, "abc".data]) =
        ItemId.from_base62 ⟨"abc".data⟩ ItemIdType.Unknown) ∧
    ItemId.from_uri "invalid_uri" = none ∧
    (∃ t, ItemId.from_uri "" = some ⟨0, t⟩) :=
  ⟨from_uri_spec.1 _ _, from_uri_spec.2.1 _ _,
   from_uri_spec.2.2.1 _ _ _ (by decide) (by decide),
   from_uri_spec.2.2.2.1 "invalid_uri" (by decide),
   from_uri_spec.2.2.2.2 "" (by decide)⟩

/-- Modelled from the spec: the structured track metadata record stored in the
cache (§4.2). `psst-core/src/cache.rs` and the protobuf-generated metadata
types are missing from the tree; the record is modelled with the
representative fields the repository's tests compare (name and duration). -/
structure Track where
  name : Option String
  duration : Option Nat
deriving DecidableEq, Repr

/-- Modelled from the spec: length-prefixed natural-number encoding (a varint:
low 7 bits per byte, high bit marks continuation); the fuel argument makes the
recursion structural. -/
def encodeNatAux : Nat → Nat → List Nat
  | 0, _ => []
  | f + 1, n => if n < 128 then [n] else (128 + n % 128) :: encodeNatAux f (n / 128)

/-- Modelled from the spec: varint encoding of a natural number. -/
def encodeNat (n : Nat) : List Nat := encodeNatAux (n + 1) n

/-- Modelled from the spec: varint decoding; fails on empty or truncated
input. Returns the value and the remaining bytes. -/
def decodeNat : List Nat → Option (Nat × List Nat)
  | [] => none
  | b :: rest =>
    if b < 128 then some (b, rest)
    else
      match decodeNat rest with
      | none => none
      | some (m, r) => some ((b - 128) + 128 * m, r)

/-- Modelled from the spec: length-prefixed string encoding (§4.2
"length-prefixed binary schema"). -/
def encodeString (s : String) : List Nat :=
  encodeNat s.data.length ++ s.data.map Char.toNat

/-- Modelled from the spec: length-prefixed string decoding; fails when fewer
bytes are available than the declared length. -/
def decodeString (l : List Nat) : Option (String × List Nat) :=
  match decodeNat l with
  | none => none
  | some (n, rest) =>
    if n ≤ rest.length then
      some (⟨(rest.take n).map Char.ofNat⟩, rest.drop n)
    else none

/-- Modelled from the spec: presence-tagged encoding of an optional field. -/
def encodeOpt {α : Type} (f : α → List Nat) : Option α → List Nat
  | none => [0]
  | some x => 1 :: f x

/-- Modelled from the spec: decoding of an optional field; any tag byte other
than 0 or 1 is malformed. -/
def decodeOpt {α : Type} (f : List Nat → Option (α × List Nat)) :
    List Nat → Option (Option α × List Nat)
  | [] => none
  | b :: rest =>
    if b = 0 then some (none, rest)
    else if b = 1 then
      match f rest with
      | none => none
      | some (x, r) => some (some x, r)
    else none

/-- Modelled from the spec: serialization of a track record using the
length-prefixed binary schema (§4.2). -/
def serializeTrack (t : Track) : List Nat :=
  encodeOpt encodeString t.name ++ encodeOpt encodeNat t.duration

/-- Modelled from the spec: deserialization of a track record; fails on
malformed, truncated or trailing bytes. -/
def deserializeTrack (l : List Nat) : Option Track :=
  match decodeOpt decodeString l with
  | none => none
  | some (n, r1) =>
    match decodeOpt decodeNat r1 with
    | none => none
    | some (d, r2) => if r2 = [] then some ⟨n, d⟩ else none

theorem decodeNat_encodeNatAux (rest : List Nat) :
    ∀ f n, n < f → decodeNat (encodeNatAux f n ++ rest) = some (n, rest) := by
  intro f
  induction f with
  | zero => intro n hn; omega
  | succ f ih =>
    intro n hn
    by_cases h : n < 128
    · simp [encodeNatAux, h, decodeNat]
    · have hdiv : n / 128 < f := by omega
      have hge : ¬(128 + n % 128 < 128) := by omega
      simp only [encodeNatAux, if_neg h, List.cons_append, decodeNat, if_neg hge,
        ih (n / 128) hdiv]
      have : 128 + n % 128 - 128 + 128 * (n / 128) = n := by omega
      rw [this]

theorem decodeNat_encodeNat (n : Nat) (rest : List Nat) :
    decodeNat (encodeNat n ++ rest) = some (n, rest) :=
  decodeNat_encodeNatAux rest (n + 1) n (Nat.lt_succ_self n)

theorem decodeNat_all_high (l : List Nat) (hl : ∀ b ∈ l, 128 ≤ b) :
    decodeNat l = none := by
  induction l with
  | nil => rfl
  | cons b rest ih =>
    have hb : 128 ≤ b := hl b (List.mem_cons_self b rest)
    have : ¬(b < 128) := by omega
    simp only [decodeNat, if_neg this,
      ih (fun x hx => hl x (List.mem_cons_of_mem b hx))]

theorem encodeNatAux_take_high :
    ∀ f n, n < f → ∀ k, k < (encodeNatAux f n).length →
      ∀ b ∈ (encodeNatAux f n).take k, 128 ≤ b := by
  intro f
  induction f with
  | zero => intro n hn; omega
  | succ f ih =>
    intro n hn k hk b hb
    by_cases h : n < 128
    · simp only [encodeNatAux, if_pos h, List.length_singleton] at hk
      have hk0 : k = 0 := by omega
      subst hk0
      simp at hb
    · have hdiv : n / 128 < f := by omega
      simp only [encodeNatAux, if_neg h] at hk hb
      cases k with
      | zero => simp at hb
      | succ k =>
        simp only [List.take_succ_cons, List.mem_cons] at hb
        rcases hb with hb | hb
        · omega
        · have hk' : k < (encodeNatAux f (n / 128)).length := by
            simp at hk; omega
          exact ih (n / 128) hdiv k hk' b hb

theorem decodeNat_take_encodeNat (n k : Nat) (hk : k < (encodeNat n).length) :
    decodeNat ((encodeNat n).take k) = none :=
  decodeNat_all_high _ (encodeNatAux_take_high (n + 1) n (Nat.lt_succ_self n) k hk)

theorem map_ofNat_toNat (l : List Char) : l.map (Char.ofNat ∘ Char.toNat) = l := by
  induction l with
  | nil => rfl
  | cons c cs ih =>
    simp only [List.map_cons, Function.comp_apply, Char.ofNat_toNat, ih]

theorem decodeString_encodeString (s : String) (rest : List Nat) :
    decodeString (encodeString s ++ rest) = some (s, rest) := by
  unfold decodeString encodeString
  rw [List.append_assoc, decodeNat_encodeNat]
  dsimp only
  have hlen : s.data.length ≤ (s.data.map Char.toNat ++ rest).length := by
    simp
  rw [if_pos hlen]
  have htake : (s.data.map Char.toNat ++ rest).take s.data.length = s.data.map Char.toNat := by
    simp
  have hdrop : (s.data.map Char.toNat ++ rest).drop s.data.length = rest := by
    simp
  rw [htake, hdrop, List.map_map, map_ofNat_toNat]

theorem decodeString_take (s : String) (k : Nat) (hk : k < (encodeString s).length) :
    decodeString ((encodeString s).take k) = none := by
  unfold encodeString at hk
  unfold decodeString encodeString
  set eN := encodeNat s.data.length with heN
  set payload := s.data.map Char.toNat with hpayload
  rcases Nat.lt_or_ge k eN.length with hlt | hge
  · rw [List.take_append_of_le_length (Nat.le_of_lt hlt)]
    have hall : ∀ b ∈ eN.take k, 128 ≤ b :=
      encodeNatAux_take_high (s.data.length + 1) s.data.length
        (Nat.lt_succ_self _) k hlt
    rw [decodeNat_all_high _ hall]
  · obtain ⟨m, hm⟩ : ∃ m, k = eN.length + m := ⟨k - eN.length, by omega⟩
    subst hm
    rw [List.take_append m, decodeNat_encodeNat]
    dsimp only
    have hmlt : m < payload.length := by
      simp only [List.length_append] at hk
      omega
    have hpl : payload.length = s.data.length := by
      simp [hpayload]
    rw [if_neg]
    rw [List.length_take]
    omega

theorem decodeOpt_encodeOpt {α : Type} (f : List Nat → Option (α × List Nat))
    (g : α → List Nat) (hfg : ∀ a rest, f (g a ++ rest) = some (a, rest)) :
    ∀ (x : Option α) (rest : List Nat),
      decodeOpt f (encodeOpt g x ++ rest) = some (x, rest) := by
  intro x rest
  cases x with
  | none => simp [encodeOpt, decodeOpt]
  | some a => simp [encodeOpt, decodeOpt, hfg a rest]

theorem decodeOpt_take {α : Type} (f : List Nat → Option (α × List Nat))
    (g : α → List Nat) (hf : ∀ a k, k < (g a).length → f ((g a).take k) = none) :
    ∀ (x : Option α) (k : Nat), k < (encodeOpt g x).length →
      decodeOpt f ((encodeOpt g x).take k) = none := by
  intro x k hk
  cases x with
  | none =>
    simp only [encodeOpt, List.length_singleton] at hk
    have : k = 0 := by omega
    subst this
    rfl
  | some a =>
    simp only [encodeOpt, List.length_cons] at hk
    cases k with
    | zero => rfl
    | succ k =>
      have he : encodeOpt g (some a) = 1 :: g a := rfl
      rw [he, List.take_succ_cons]
      simp [decodeOpt, hf a k (by omega)]

theorem decodeOpt_encodeOpt_nil {α : Type} (f : List Nat → Option (α × List Nat))
    (g : α → List Nat) (hfg : ∀ a rest, f (g a ++ rest) = some (a, rest))
    (x : Option α) : decodeOpt f (encodeOpt g x) = some (x, []) := by
  have := decodeOpt_encodeOpt f g hfg x []
  simpa using this

theorem deserializeTrack_serializeTrack (t : Track) :
    deserializeTrack (serializeTrack t) = some t := by
  unfold deserializeTrack serializeTrack
  rw [decodeOpt_encodeOpt decodeString encodeString decodeString_encodeString]
  dsimp only
  rw [decodeOpt_encodeOpt_nil decodeNat encodeNat decodeNat_encodeNat]
  rfl

theorem deserializeTrack_take (t : Track) (k : Nat)
    (hk : k < (serializeTrack t).length) :
    deserializeTrack ((serializeTrack t).take k) = none := by
  unfold serializeTrack at hk
  unfold deserializeTrack serializeTrack
  set e1 := encodeOpt encodeString t.name with he1
  set e2 := encodeOpt encodeNat t.duration with he2
  rcases Nat.lt_or_ge k e1.length with hlt | hge
  · rw [List.take_append_of_le_length (Nat.le_of_lt hlt)]
    rw [decodeOpt_take decodeString encodeString
      (fun s j hj => decodeString_take s j hj) t.name k hlt]
  · obtain ⟨m, hm⟩ : ∃ m, k = e1.length + m := ⟨k - e1.length, by omega⟩
    subst hm
    rw [List.take_append m]
    rw [decodeOpt_encodeOpt decodeString encodeString decodeString_encodeString]
    dsimp only
    have hmlt : m < e2.length := by
      simp only [List.length_append] at hk
      omega
    rw [decodeOpt_take decodeNat encodeNat
      (fun n j hj => decodeNat_take_encodeNat n j hj) t.duration m hmlt]

/-- Modelled from the spec: the cache's on-disk state — a map from a
(content-class subdirectory, file name) path to the stored bytes (§4.2, §6).
`psst-core/src/cache.rs` is missing from the tree. -/
def CacheFs : Type := String × String → Option (List Nat)

/-- The empty cache file system: no entry exists for any path. -/
def emptyCacheFs : CacheFs := fun _ => none

/-- Modelled from the spec: a storage path is a pure function of the content
class and the id's base62 form (§4.2). -/
def track_path (id : ItemId) : String × String :=
  ("track", ItemId.to_base62 id)

/-- Modelled from the spec: `save_track` serializes the record and always
truncates/overwrites any prior entry for that id's file (§4.2). -/
def Cache.save_track (fs : CacheFs) (id : ItemId) (t : Track) : CacheFs :=
  fun p => if p = track_path id then some (serializeTrack t) else fs p

/-- Modelled from the spec: `get_track` reads the id's file and deserializes
it; an absent file or bytes that fail to deserialize give "not found" (§4.2). -/
def Cache.get_track (fs : CacheFs) (id : ItemId) : Option Track :=
  match fs (track_path id) with
  | none => none
  | some bytes => deserializeTrack bytes

/-- C3: `get_track` returns "not found" (`none`) both when no file exists for
the id and when the stored bytes fail to deserialize — including empty files
and every strict truncation of a valid serialization — and never surfaces an
error to the caller. -/
theorem get_track_corruption_is_miss :
    (∀ (fs : CacheFs) (id : ItemId),
      fs (track_path id) = none → Cache.get_track fs id = none) ∧
    (∀ (fs : CacheFs) (id : ItemId) (bytes : List Nat),
      fs (track_path id) = some bytes → deserializeTrack bytes = none →
      Cache.get_track fs id = none) ∧
    deserializeTrack [] = none ∧
    (∀ (t : Track) (k : Nat), k < (serializeTrack t).length →
      deserializeTrack ((serializeTrack t).take k) = none) := by
  refine ⟨?_, ?_, rfl, deserializeTrack_take⟩
  · intro fs id h
    unfold Cache.get_track
    rw [h]
  · intro fs id bytes h hbad
    unfold Cache.get_track
    rw [h]
    exact hbad

/-- Witness for C3: an absent entry, a corrupt entry, and a one-byte
truncation of a valid record all read back as a miss. -/
theorem get_track_corruption_is_miss_witness :
    Cache.get_track emptyCacheFs ⟨999999, ItemIdType.Track⟩ = none ∧
    Cache.get_track
      (fun p => if p = track_path ⟨7, ItemIdType.Track⟩ then some [255] else none)
      ⟨7, ItemIdType.Track⟩ = none ∧
    ((serializeTrack ⟨some "Track 1", some 180000⟩).length - 1 <
      (serializeTrack ⟨some "Track 1", some 180000⟩).length ∧
     deserializeTrack ((serializeTrack ⟨some "Track 1", some 180000⟩).take
        ((serializeTrack ⟨some "Track 1", some 180000⟩).length - 1)) = none) :=
  ⟨get_track_corruption_is_miss.1 emptyCacheFs ⟨999999, ItemIdType.Track⟩ rfl,
   get_track_corruption_is_miss.2.1 _ ⟨7, ItemIdType.Track⟩ [255] (by decide) (by decide),
   by decide,
   get_track_corruption_is_miss.2.2.2 ⟨some "Track 1", some 180000⟩ _ (by decide)⟩

theorem to_base62_data (i : ItemId) :
    (ItemId.to_base62 i).data = (digitsBE 62 22 i.id).map base62Char := by
  unfold ItemId.to_base62
  rw [string_data_mk]

theorem to_base62_inj (a b : ItemId) (ha : a.id < u128Size) (hb : b.id < u128Size)
    (h : ItemId.to_base62 a = ItemId.to_base62 b) : a.id = b.id := by
  have hv' := decode_encode_base62 a.id ha
  have hw' := decode_encode_base62 b.id hb
  have h2 := congrArg String.data h
  rw [to_base62_data, to_base62_data] at h2
  rw [h2, hw'] at hv'
  exact ((Option.some.injEq _ _).mp hv').symm

theorem track_path_snd (i : ItemId) : (track_path i).2 = ItemId.to_base62 i := by
  unfold track_path
  rfl

/-- Applying a sequence of `save_track` operations in order. -/
def applySaves (fs : CacheFs) (l : List (ItemId × Track)) : CacheFs :=
  l.foldl (fun acc p => Cache.save_track acc p.1 p.2) fs

theorem track_path_eq_of_id_eq (a b : ItemId) (h : a.id = b.id) :
    track_path a = track_path b := by
  unfold track_path ItemId.to_base62
  rw [h]

/-- C4 (amended): after any sequence of saves, `get_track id` returns the
record of the most recent save whose id has the same 128-bit value (saves
always overwrite, no merge), and saves under ids with a different 128-bit
value never change what `get_track id` returns. (Ids that differ only in the
type tag share one file, so the claim's "any distinct id" holds only up to the
numeric value.) -/
theorem cache_save_get_last_writer_wins (l : List (ItemId × Track)) (fs : CacheFs)
    (id : ItemId) (hid : id.id < u128Size)
    (hl : ∀ p ∈ l, (p : ItemId × Track).1.id < u128Size) :
    Cache.get_track (applySaves fs l) id =
      match (l.filter fun p => p.1.id == id.id).getLast? with
      | some p => some p.2
      | none => Cache.get_track fs id := by
  induction l using List.reverseRecOn with
  | nil => simp [applySaves]
  | append_singleton l p ih =>
    have hl' : ∀ q ∈ l, (q : ItemId × Track).1.id < u128Size :=
      fun q hq => hl q (List.mem_append_left _ hq)
    have hp : p.1.id < u128Size :=
      hl p (List.mem_append_right _ (List.mem_singleton.mpr rfl))
    have happ : applySaves fs (l ++ [p]) = Cache.save_track (applySaves fs l) p.1 p.2 := by
      unfold applySaves
      rw [List.foldl_append]
      rfl
    rw [happ]
    by_cases heq : p.1.id = id.id
    · have hpath : track_path id = track_path p.1 := track_path_eq_of_id_eq _ _ heq.symm
      have hread : Cache.save_track (applySaves fs l) p.1 p.2 (track_path id) =
          some (serializeTrack p.2) := by
        unfold Cache.save_track
        rw [if_pos hpath]
      have hfilter : ((l ++ [p]).filter fun q => q.1.id == id.id) =
          (l.filter fun q => q.1.id == id.id) ++ [p] := by
        rw [List.filter_append]
        have : (fun q : ItemId × Track => q.1.id == id.id) p = true := by
          simp [heq]
        simp [List.filter, this]
      unfold Cache.get_track
      rw [hread]
      dsimp only
      rw [deserializeTrack_serializeTrack, hfilter, List.getLast?_concat]
    · have hpath : track_path id ≠ track_path p.1 := by
        intro hcontra
        have hb62 : ItemId.to_base62 id = ItemId.to_base62 p.1 := by
          rw [← track_path_snd id, ← track_path_snd p.1, hcontra]
        exact heq (to_base62_inj id p.1 hid hp hb62).symm
      have hread : Cache.save_track (applySaves fs l) p.1 p.2 (track_path id) =
          applySaves fs l (track_path id) := by
        unfold Cache.save_track
        rw [if_neg hpath]
      have hfilter : ((l ++ [p]).filter fun q => q.1.id == id.id) =
          l.filter fun q => q.1.id == id.id := by
        rw [List.filter_append]
        have : (fun q : ItemId × Track => q.1.id == id.id) p = false := by
          simp [heq]
        simp [List.filter, this]
      have hget : Cache.get_track (Cache.save_track (applySaves fs l) p.1 p.2) id =
          Cache.get_track (applySaves fs l) id := by
        unfold Cache.get_track
        rw [hread]
      rw [hget, hfilter]
      exact ih hl'

/-- Witness for C4's amended theorem: a three-save sequence where id 123 is
saved twice and id 456 once; each id reads back its own most recent record. -/
theorem cache_save_get_last_writer_wins_witness :
    (123 : Nat) < u128Size ∧
    (∀ p ∈ ([(⟨123, ItemIdType.Track⟩, ⟨some "A", some 1⟩),
             (⟨456, ItemIdType.Track⟩, ⟨some "B", some 2⟩),
             (⟨123, ItemIdType.Track⟩, ⟨some "C", some 3⟩)] : List (ItemId × Track)),
      p.1.id < u128Size) ∧
    Cache.get_track (applySaves emptyCacheFs
        [(⟨123, ItemIdType.Track⟩, ⟨some "A", some 1⟩),
         (⟨456, ItemIdType.Track⟩, ⟨some "B", some 2⟩),
         (⟨123, ItemIdType.Track⟩, ⟨some "C", some 3⟩)]) ⟨123, ItemIdType.Track⟩ =
      some ⟨some "C", some 3⟩ ∧
    Cache.get_track (applySaves emptyCacheFs
        [(⟨123, ItemIdType.Track⟩, ⟨some "A", some 1⟩),
         (⟨456, ItemIdType.Track⟩, ⟨some "B", some 2⟩),
         (⟨123, ItemIdType.Track⟩, ⟨some "C", some 3⟩)]) ⟨456, ItemIdType.Track⟩ =
      some ⟨some "B", some 2⟩ :=
  ⟨by decide, by decide,
   (cache_save_get_last_writer_wins _ emptyCacheFs _ (by decide) (by decide)).trans
     (by decide),
   (cache_save_get_last_writer_wins _ emptyCacheFs _ (by decide) (by decide)).trans
     (by decide)⟩

/-- Counterexample for C4 as stated: the ItemIds (5, Track) and (5, Podcast)
are distinct, yet saving under (5, Podcast) changes what `get_track` returns
for (5, Track), because the storage path depends only on the id's base62
form. -/
theorem cache_distinct_ids_collide_counterexample :
    ((⟨5, ItemIdType.Track⟩ : ItemId) ≠ ⟨5, ItemIdType.Podcast⟩) ∧
    Cache.get_track (Cache.save_track emptyCacheFs ⟨5, ItemIdType.Track⟩
        ⟨some "Track 1", some 1⟩) ⟨5, ItemIdType.Track⟩ =
      some ⟨some "Track 1", some 1⟩ ∧
    Cache.get_track
        (Cache.save_track
          (Cache.save_track emptyCacheFs ⟨5, ItemIdType.Track⟩ ⟨some "Track 1", some 1⟩)
          ⟨5, ItemIdType.Podcast⟩ ⟨some "Track 2", some 2⟩)
        ⟨5, ItemIdType.Track⟩ =
      some ⟨some "Track 2", some 2⟩ ∧
    ((⟨some "Track 1", some 1⟩ : Track) ≠ ⟨some "Track 2", some 2⟩) := by
  refine ⟨by decide, by decide, by decide, by decide⟩

/-- A single equalizer band: center frequency in Hz and gain in dB
(`EqualizerBand` in `psst-core/src/audio/equalizer.rs`). The source's `f32`
samples and parameters are embedded as Lean `Float`; the claims proved below
depend only on which samples are touched, never on rounding. -/
structure EqualizerBand where
  frequency : Float
  gain_db : Float

/-- Equalizer configuration: enabled flag plus the frequency bands
(`EqualizerConfig` in equalizer.rs). -/
structure EqualizerConfig where
  enabled : Bool
  bands : List EqualizerBand

/-- The standard 10-band frequencies, all at 0 dB
(`EqualizerConfig::default_bands`). -/
def EqualizerConfig.default_bands : List EqualizerBand :=
  [⟨32.0, 0.0⟩, ⟨64.0, 0.0⟩, ⟨125.0, 0.0⟩, ⟨250.0, 0.0⟩, ⟨500.0, 0.0⟩,
   ⟨1000.0, 0.0⟩, ⟨2000.0, 0.0⟩, ⟨4000.0, 0.0⟩, ⟨8000.0, 0.0⟩, ⟨16000.0, 0.0⟩]

/-- The default configuration: disabled, default bands
(`impl Default for EqualizerConfig`). -/
def EqualizerConfig.default : EqualizerConfig :=
  ⟨false, EqualizerConfig.default_bands⟩

/-- `std::f32::consts::PI` as used by the coefficient computation. -/
def floatPI : Float := 3.14159265358979323846

/-- Biquad filter coefficients for peaking EQ (`BiquadCoefficients`). -/
structure BiquadCoefficients where
  b0 : Float
  b1 : Float
  b2 : Float
  a1 : Float
  a2 : Float

/-- `BiquadCoefficients::peaking_eq`: the analog-prototype peaking-EQ biquad
transform with Q = 1, normalized by `a0`. -/
def BiquadCoefficients.peaking_eq (frequency gain_db : Float) (sample_rate : Nat) :
    BiquadCoefficients :=
  let a := Float.pow 10.0 (gain_db / 40.0)
  let omega := 2.0 * floatPI * frequency / sample_rate.toFloat
  let cos_omega := Float.cos omega
  let sin_omega := Float.sin omega
  let q := 1.0
  let alpha := sin_omega / (2.0 * q)
  let b0 := 1.0 + alpha * a
  let b1 := -2.0 * cos_omega
  let b2 := 1.0 - alpha * a
  let a0 := 1.0 + alpha / a
  let a1 := -2.0 * cos_omega
  let a2 := 1.0 - alpha / a
  ⟨b0 / a0, b1 / a0, b2 / a0, a1 / a0, a2 / a0⟩

/-- Biquad filter state for a single channel (`BiquadState`): two prior
inputs and two prior outputs. -/
structure BiquadState where
  x1 : Float
  x2 : Float
  y1 : Float
  y2 : Float

/-- `BiquadState::new`: silent state, all zeros. -/
def BiquadState.new : BiquadState := ⟨0.0, 0.0, 0.0, 0.0⟩

/-- `BiquadState::process`: one filter step, returning the output sample and
the updated state (the source mutates the state in place). -/
def BiquadState.process (st : BiquadState) (input : Float)
    (coeff : BiquadCoefficients) : Float × BiquadState :=
  let output := coeff.b0 * input + coeff.b1 * st.x1 + coeff.b2 * st.x2
    - coeff.a1 * st.y1 - coeff.a2 * st.y2
  (output, ⟨input, st.x1, output, st.y1⟩)

/-- The audio equalizer processor (`Equalizer`): configuration, sample rate,
per-band coefficients, and per-band filter state for each stereo channel. -/
structure Equalizer where
  config : EqualizerConfig
  sample_rate : Nat
  coefficients : List BiquadCoefficients
  states_left : List BiquadState
  states_right : List BiquadState

/-- `Equalizer::calculate_coefficients`: one peaking-EQ biquad per band. -/
def Equalizer.calculate_coefficients (bands : List EqualizerBand)
    (sample_rate : Nat) : List BiquadCoefficients :=
  bands.map fun band => BiquadCoefficients.peaking_eq band.frequency band.gain_db sample_rate

/-- `Equalizer::new`: coefficients computed from the config, filter state
silent, one state per band per channel. -/
def Equalizer.new (config : EqualizerConfig) (sample_rate : Nat) : Equalizer :=
  let coefficients := Equalizer.calculate_coefficients config.bands sample_rate
  let num_bands := config.bands.length
  ⟨config, sample_rate, coefficients,
    List.replicate num_bands BiquadState.new,
    List.replicate num_bands BiquadState.new⟩

/-- `Equalizer::update_config`: recompute coefficients immediately; reset the
filter state to silence only when the number of bands differs from the length
of the existing state vectors; finally store the new config. -/
def Equalizer.update_config (eq : Equalizer) (config : EqualizerConfig) : Equalizer :=
  let coefficients := Equalizer.calculate_coefficients config.bands eq.sample_rate
  let num_bands := config.bands.length
  if num_bands ≠ eq.states_left.length then
    ⟨config, eq.sample_rate, coefficients,
      List.replicate num_bands BiquadState.new,
      List.replicate num_bands BiquadState.new⟩
  else
    ⟨config, eq.sample_rate, coefficients, eq.states_left, eq.states_right⟩

/-- The per-sample cascade in `Equalizer::process`: apply each band's filter
in series, threading the per-band states (the source indexes
`states[i]` for each coefficient; the two lists have equal length by the
`new`/`update_config` invariant, so the mismatched case is never reached). -/
def chainBands : List BiquadCoefficients → List BiquadState → Float →
    Float × List BiquadState
  | [], sts, x => (x, sts)
  | _ :: _, [], x => (x, [])
  | c :: cs, st :: sts, x =>
    let r1 := st.process x c
    let r2 := chainBands cs sts r1.1
    (r2.1, r1.2 :: r2.2)

/-- The chunk loop in `Equalizer::process`: `chunks_exact_mut(2)` visits only
complete stereo pairs, so a trailing unpaired sample is left untouched. -/
def processPairs (cs : List BiquadCoefficients) :
    List BiquadState → List BiquadState → List Float →
    List Float × List BiquadState × List BiquadState
  | L, R, x :: y :: rest =>
    let rx := chainBands cs L x
    let ry := chainBands cs R y
    let rr := processPairs cs rx.2 ry.2 rest
    (rx.1 :: ry.1 :: rr.1, rr.2)
  | L, R, rest => (rest, L, R)

/-- `Equalizer::process`: early return when disabled, otherwise filter the
buffer pairwise and keep the updated filter state. -/
def Equalizer.process (eq : Equalizer) (samples : List Float) :
    Equalizer × List Float :=
  if eq.config.enabled then
    let r := processPairs eq.coefficients eq.states_left eq.states_right samples
    (⟨eq.config, eq.sample_rate, eq.coefficients, r.2.1, r.2.2⟩, r.1)
  else
    (eq, samples)

/-- C5: when the equalizer's config has `enabled = false`, `process` leaves
every sample bit-identical to its input and the internal filter state
unchanged, for every input buffer. -/
theorem equalizer_process_disabled (eq : Equalizer) (samples : List Float)
    (h : eq.config.enabled = false) :
    Equalizer.process eq samples = (eq, samples) := by
  unfold Equalizer.process
  rw [h]
  simp

/-- Witness for C5: a freshly constructed equalizer with the default
(disabled) config passes a concrete buffer through unchanged. -/
theorem equalizer_process_disabled_witness :
    (Equalizer.new EqualizerConfig.default 44100).config.enabled = false ∧
    Equalizer.process (Equalizer.new EqualizerConfig.default 44100)
        [0.5, -0.5, 0.3, -0.3] =
      (Equalizer.new EqualizerConfig.default 44100, [0.5, -0.5, 0.3, -0.3]) :=
  ⟨rfl, equalizer_process_disabled _ _ rfl⟩

/-- C6: `update_config` recomputes all biquad coefficients from the new bands,
and resets the per-band per-channel filter state to silence exactly when the
new band count differs from the current one; with an unchanged band count the
existing filter state is preserved exactly. (The hypotheses are the length
invariant that `new` establishes and `update_config` maintains.) -/
theorem equalizer_update_config_spec (eq : Equalizer) (cfg : EqualizerConfig)
    (hL : eq.states_left.length = eq.config.bands.length)
    (hR : eq.states_right.length = eq.config.bands.length) :
    (Equalizer.update_config eq cfg).coefficients =
      Equalizer.calculate_coefficients cfg.bands eq.sample_rate ∧
    (cfg.bands.length ≠ eq.config.bands.length →
      (Equalizer.update_config eq cfg).states_left =
        List.replicate cfg.bands.length BiquadState.new ∧
      (Equalizer.update_config eq cfg).states_right =
        List.replicate cfg.bands.length BiquadState.new) ∧
    (cfg.bands.length = eq.config.bands.length →
      (Equalizer.update_config eq cfg).states_left = eq.states_left ∧
      (Equalizer.update_config eq cfg).states_right = eq.states_right) := by
  simp only [Equalizer.update_config]
  by_cases h : cfg.bands.length = eq.states_left.length
  · rw [if_neg (by omega : ¬cfg.bands.length ≠ eq.states_left.length)]
    exact ⟨rfl, fun hne => absurd (h.trans hL) hne, fun _ => ⟨rfl, rfl⟩⟩
  · rw [if_pos h]
    exact ⟨rfl, fun _ => ⟨rfl, rfl⟩, fun heq => absurd (heq.trans hL.symm) h⟩

/-- Witness for C6: shrinking the default 10-band config to 1 band resets the
state; reusing a 10-band config preserves it; coefficients follow the new
bands. -/
theorem equalizer_update_config_witness :
    ((Equalizer.new EqualizerConfig.default 44100).states_left.length =
      (Equalizer.new EqualizerConfig.default 44100).config.bands.length) ∧
    ((Equalizer.update_config (Equalizer.new EqualizerConfig.default 44100)
        ⟨true, [⟨1000.0, 3.0⟩]⟩).states_left = List.replicate 1 BiquadState.new) ∧
    ((Equalizer.update_config (Equalizer.new EqualizerConfig.default 44100)
        ⟨true, EqualizerConfig.default_bands⟩).states_left =
      (Equalizer.new EqualizerConfig.default 44100).states_left) ∧
    ((Equalizer.update_config (Equalizer.new EqualizerConfig.default 44100)
        ⟨true, [⟨1000.0, 3.0⟩]⟩).coefficients =
      Equalizer.calculate_coefficients [⟨1000.0, 3.0⟩] 44100) :=
  ⟨rfl,
   ((equalizer_update_config_spec _ _ rfl rfl).2.1 (by decide)).1,
   ((equalizer_update_config_spec _ _ rfl rfl).2.2 (by decide)).1,
   (equalizer_update_config_spec _ _ rfl rfl).1⟩

theorem processPairs_length (cs : List BiquadCoefficients) :
    ∀ (samples : List Float) (L R : List BiquadState),
      (processPairs cs L R samples).1.length = samples.length
  | [], _, _ => rfl
  | [_], _, _ => rfl
  | x :: y :: rest, L, R => by
    simp only [processPairs, List.length_cons]
    rw [processPairs_length cs rest _ _]

theorem getLast?_cons_ne {α : Type} (a : α) (l : List α) (h : l ≠ []) :
    (a :: l).getLast? = l.getLast? := by
  cases l with
  | nil => exact absurd rfl h
  | cons b t => exact List.getLast?_cons_cons

theorem processPairs_getLast?_odd (cs : List BiquadCoefficients) :
    ∀ (samples : List Float) (L R : List BiquadState), Odd samples.length →
      (processPairs cs L R samples).1.getLast? = samples.getLast?
  | [], _, _, h => by simp [Nat.odd_iff] at h
  | [_], _, _, _ => rfl
  | x :: y :: rest, L, R, h => by
    have hrest : Odd rest.length := by
      rw [Nat.odd_iff] at h ⊢
      simp only [List.length_cons] at h
      omega
    have hne : rest ≠ [] := by
      intro he
      subst he
      simp [Nat.odd_iff] at hrest
    simp only [processPairs]
    have hlen := processPairs_length cs rest
      (chainBands cs L x).2 (chainBands cs R y).2
    have hout : (processPairs cs (chainBands cs L x).2 (chainBands cs R y).2 rest).1 ≠ [] := by
      intro he
      rw [he] at hlen
      exact hne (List.eq_nil_of_length_eq_zero hlen.symm)
    rw [getLast?_cons_ne _ _ (List.cons_ne_nil _ _), getLast?_cons_ne _ _ hout,
      getLast?_cons_ne _ _ (List.cons_ne_nil _ _), getLast?_cons_ne _ _ hne]
    exact processPairs_getLast?_odd cs rest _ _ hrest

/-- C10: `Equalizer::process` iterates over exact stereo pairs, so for every
configuration and every odd-length buffer the final unpaired sample is left
bit-identical (with the buffer length preserved), and a buffer of length 0 or
1 is never modified — neither samples nor filter state. -/
theorem equalizer_unpaired_sample (eq : Equalizer) (samples : List Float) :
    (Odd samples.length →
      (Equalizer.process eq samples).2.getLast? = samples.getLast? ∧
      (Equalizer.process eq samples).2.length = samples.length) ∧
    (samples.length ≤ 1 → Equalizer.process eq samples = (eq, samples)) := by
  constructor
  · intro hodd
    unfold Equalizer.process
    by_cases he : eq.config.enabled = true
    · rw [if_pos he]
      exact ⟨processPairs_getLast?_odd _ samples _ _ hodd,
        processPairs_length _ samples _ _⟩
    · rw [if_neg he]
      exact ⟨rfl, rfl⟩
  · intro hle
    match samples, hle with
    | [], _ =>
      unfold Equalizer.process
      by_cases he : eq.config.enabled = true
      · rw [if_pos he]
        rfl
      · rw [if_neg he]
    | [x], _ =>
      unfold Equalizer.process
      by_cases he : eq.config.enabled = true
      · rw [if_pos he]
        rfl
      · rw [if_neg he]

/-- Witness for C10: an enabled 10-band equalizer leaves the third sample of a
3-sample buffer untouched, and passes a 1-sample buffer through unchanged. -/
theorem equalizer_unpaired_sample_witness :
    Odd ([0.5, -0.5, 0.3] : List Float).length ∧
    (Equalizer.process (Equalizer.new ⟨true, EqualizerConfig.default_bands⟩ 44100)
        [0.5, -0.5, 0.3]).2.getLast? = some 0.3 ∧
    (Equalizer.process (Equalizer.new ⟨true, EqualizerConfig.default_bands⟩ 44100)
        [0.5, -0.5, 0.3]).2.length = 3 ∧
    Equalizer.process (Equalizer.new ⟨true, EqualizerConfig.default_bands⟩ 44100) [0.7] =
      (Equalizer.new ⟨true, EqualizerConfig.default_bands⟩ 44100, [0.7]) :=
  ⟨by decide,
   ((equalizer_unpaired_sample _ _).1 (by decide)).1.trans rfl,
   ((equalizer_unpaired_sample _ _).1 (by decide)).2.trans rfl,
   (equalizer_unpaired_sample _ _).2 (by decide)⟩

/-- A named equalizer preset (`EqualizerPreset` in equalizer.rs). -/
structure EqualizerPreset where
  name : String
  bands : List EqualizerBand

/-- `EqualizerPreset::built_in_presets`: the eight built-in presets, with the
band tables transcribed from equalizer.rs. -/
def EqualizerPreset.built_in_presets : List EqualizerPreset :=
  [⟨"Flat", EqualizerConfig.default_bands⟩,
   ⟨"Bass Boost",
    [⟨32.0, 8.0⟩, ⟨64.0, 6.0⟩, ⟨125.0, 4.0⟩, ⟨250.0, 2.0⟩, ⟨500.0, 0.0⟩,
     ⟨1000.0, 0.0⟩, ⟨2000.0, 0.0⟩, ⟨4000.0, 0.0⟩, ⟨8000.0, 0.0⟩, ⟨16000.0, 0.0⟩]⟩,
   ⟨"Treble Boost",
    [⟨32.0, 0.0⟩, ⟨64.0, 0.0⟩, ⟨125.0, 0.0⟩, ⟨250.0, 0.0⟩, ⟨500.0, 0.0⟩,
     ⟨1000.0, 2.0⟩, ⟨2000.0, 4.0⟩, ⟨4000.0, 6.0⟩, ⟨8000.0, 8.0⟩, ⟨16000.0, 8.0⟩]⟩,
   ⟨"Vocal",
    [⟨32.0, -2.0⟩, ⟨64.0, -2.0⟩, ⟨125.0, -1.0⟩, ⟨250.0, 2.0⟩, ⟨500.0, 4.0⟩,
     ⟨1000.0, 4.0⟩, ⟨2000.0, 4.0⟩, ⟨4000.0, 2.0⟩, ⟨8000.0, 0.0⟩, ⟨16000.0, -2.0⟩]⟩,
   ⟨"Rock",
    [⟨32.0, 5.0⟩, ⟨64.0, 4.0⟩, ⟨125.0, 2.0⟩, ⟨250.0, -1.0⟩, ⟨500.0, -2.0⟩,
     ⟨1000.0, -1.0⟩, ⟨2000.0, 2.0⟩, ⟨4000.0, 4.0⟩, ⟨8000.0, 5.0⟩, ⟨16000.0, 5.0⟩]⟩,
   ⟨"Classical",
    [⟨32.0, 0.0⟩, ⟨64.0, 0.0⟩, ⟨125.0, 0.0⟩, ⟨250.0, 0.0⟩, ⟨500.0, 0.0⟩,
     ⟨1000.0, 0.0⟩, ⟨2000.0, -2.0⟩, ⟨4000.0, -2.0⟩, ⟨8000.0, -2.0⟩, ⟨16000.0, -3.0⟩]⟩,
   ⟨"Jazz",
    [⟨32.0, 3.0⟩, ⟨64.0, 2.0⟩, ⟨125.0, 1.0⟩, ⟨250.0, 2.0⟩, ⟨500.0, -1.0⟩,
     ⟨1000.0, -1.0⟩, ⟨2000.0, 0.0⟩, ⟨4000.0, 2.0⟩, ⟨8000.0, 3.0⟩, ⟨16000.0, 3.0⟩]⟩,
   ⟨"Pop",
    [⟨32.0, -1.0⟩, ⟨64.0, 0.0⟩, ⟨125.0, 2.0⟩, ⟨250.0, 4.0⟩, ⟨500.0, 4.0⟩,
     ⟨1000.0, 3.0⟩, ⟨2000.0, 0.0⟩, ⟨4000.0, -1.0⟩, ⟨8000.0, -1.0⟩, ⟨16000.0, -2.0⟩]⟩]

/-- ASCII lowercasing of a character, for `eq_ignore_ascii_case`. -/
def asciiLowerChar (c : Char) : Char :=
  if 65 ≤ c.toNat ∧ c.toNat ≤ 90 then Char.ofNat (c.toNat + 32) else c

/-- `str::eq_ignore_ascii_case`: equality up to ASCII case. -/
def eqIgnoreAsciiCase (s t : String) : Bool :=
  s.data.map asciiLowerChar == t.data.map asciiLowerChar

/-- `configure_equalizer` from `psst-cli/src/main.rs`: starts from the default
config; a recognized preset name (ASCII case-insensitive) installs that
preset's bands and enables the equalizer; an unknown name only logs a
warning and keeps the default. -/
def configure_equalizer (preset : Option String) : EqualizerConfig :=
  match preset with
  | none => EqualizerConfig.default
  | some preset_name =>
    match EqualizerPreset.built_in_presets.find?
        (fun p => eqIgnoreAsciiCase p.name preset_name) with
    | some p => ⟨true, p.bands⟩
    | none => EqualizerConfig.default

/-- The CLI's error enum (`CliError` in `psst-cli/src/main.rs`). The `Core`
variant wraps a runtime core error; its display string is carried directly
because `psst_core::error::Error` is not part of the tree. -/
inductive CliError where
  | MissingTrackId
  | MissingUsername
  | MissingPassword
  | InvalidTrackId (track : String)
  | Core (msg : String)
deriving DecidableEq

/-- `impl fmt::Display for CliError`: the message printed to stderr
before the process exits non-zero. -/
def CliError.message : CliError → String
  | CliError.MissingTrackId => "Expected <track_id> in the first parameter"
  | CliError.MissingUsername => "Environment variable SPOTIFY_USERNAME is required"
  | CliError.MissingPassword => "Environment variable SPOTIFY_PASSWORD is required"
  | CliError.InvalidTrackId track => "Invalid Spotify track id: \x27" ++ track ++ "\x27"
  | CliError.Core msg => msg

/-- `run` from `psst-cli/src/main.rs`, embedded up to its
`PSST_CLI_TEST_MODE` early return: the first element of `args` is the binary
name; the positional track id, the two credential environment variables and
the base62 parse are checked in source order, and the equalizer is configured
from the optional second argument. Beyond this point the source enters the
networking phase (session, playback), which is runtime I/O outside the
embedding and surfaces only as `CliError::Core`. -/
def runCli (args : List String) (env : String → Option String) : Except CliError Unit :=
  let rest := args.drop 1
  match rest.head? with
  | none => Except.error CliError.MissingTrackId
  | some track_id =>
    let eq_preset_name := (rest.drop 1).head?
    match env "SPOTIFY_USERNAME" with
    | none => Except.error CliError.MissingUsername
    | some _ =>
      match env "SPOTIFY_PASSWORD" with
      | none => Except.error CliError.MissingPassword
      | some _ =>
        match ItemId.from_base62 track_id ItemIdType.Track with
        | none => Except.error (CliError.InvalidTrackId track_id)
        | some _ =>
          let _equalizer := configure_equalizer eq_preset_name
          Except.ok ()

theorem message_invalid_head (t : String) :
    (CliError.message (CliError.InvalidTrackId t)).data.head? = some 'I' := by
  have hd : (CliError.message (CliError.InvalidTrackId t)).data
      = ("Invalid Spotify track id: \x27".data ++ t.data) ++ "\x27".data := rfl
  rw [hd, List.head?_append, List.head?_append]
  rfl

/-- C9: the validation phase of the CLI's `run` fails exactly when the
positional track-id argument is missing, when `SPOTIFY_USERNAME` or
`SPOTIFY_PASSWORD` is absent, or when the identifier fails base62 parsing;
each failure maps to its own specific error variant, and the four failure
messages are pairwise distinct. -/
theorem cli_run_fails_iff (args : List String) (env : String → Option String) :
    ((∃ e, runCli args env = Except.error e) ↔
      (args[1]? = none ∨
       env "SPOTIFY_USERNAME" = none ∨
       env "SPOTIFY_PASSWORD" = none ∨
       (∃ tid, args[1]? = some tid ∧
         ItemId.from_base62 tid ItemIdType.Track = none))) ∧
    (args[1]? = none →
      runCli args env = Except.error CliError.MissingTrackId) ∧
    (∀ tid, args[1]? = some tid → env "SPOTIFY_USERNAME" = none →
      runCli args env = Except.error CliError.MissingUsername) ∧
    (∀ tid u, args[1]? = some tid → env "SPOTIFY_USERNAME" = some u →
      env "SPOTIFY_PASSWORD" = none →
      runCli args env = Except.error CliError.MissingPassword) ∧
    (∀ tid u p, args[1]? = some tid → env "SPOTIFY_USERNAME" = some u →
      env "SPOTIFY_PASSWORD" = some p →
      ItemId.from_base62 tid ItemIdType.Track = none →
      runCli args env = Except.error (CliError.InvalidTrackId tid)) ∧
    (∀ t, CliError.message (CliError.InvalidTrackId t) ≠
      CliError.message CliError.MissingTrackId) ∧
    (∀ t, CliError.message (CliError.InvalidTrackId t) ≠
      CliError.message CliError.MissingUsername) ∧
    (∀ t, CliError.message (CliError.InvalidTrackId t) ≠
      CliError.message CliError.MissingPassword) ∧
    CliError.message CliError.MissingTrackId ≠ CliError.message CliError.MissingUsername ∧
    CliError.message CliError.MissingTrackId ≠ CliError.message CliError.MissingPassword ∧
    CliError.message CliError.MissingUsername ≠ CliError.message CliError.MissingPassword := by
  have hinv : ∀ (e : CliError), (CliError.message (CliError.InvalidTrackId "x")).data.head? =
      some 'I' := fun _ => message_invalid_head "x"
  refine ⟨?_, ?_, ?_, ?_, ?_, ?_, ?_, ?_, by decide, by decide, by decide⟩
  · constructor
    · intro ⟨e, he⟩
      by_contra hno
      push_neg at hno
      obtain ⟨h1, h2, h3, h4⟩ := hno
      obtain ⟨tid, htid⟩ := Option.ne_none_iff_exists'.mp h1
      obtain ⟨u, hu⟩ := Option.ne_none_iff_exists'.mp h2
      obtain ⟨p, hp⟩ := Option.ne_none_iff_exists'.mp h3
      obtain ⟨i, hi⟩ := Option.ne_none_iff_exists'.mp (h4 tid htid)
      have : runCli args env = Except.ok () := by
        simp [runCli, htid, hu, hp, hi]
      rw [this] at he
      exact Except.noConfusion he
    · intro h
      rcases h with h | h | h | ⟨tid, htid, hbad⟩
      · exact ⟨CliError.MissingTrackId, by simp [runCli, h]⟩
      · cases hh : args[1]? with
        | none => exact ⟨CliError.MissingTrackId, by simp [runCli, hh]⟩
        | some tid => exact ⟨CliError.MissingUsername, by simp [runCli, hh, h]⟩
      · cases hh : args[1]? with
        | none => exact ⟨CliError.MissingTrackId, by simp [runCli, hh]⟩
        | some tid =>
          cases hu : env "SPOTIFY_USERNAME" with
          | none => exact ⟨CliError.MissingUsername, by simp [runCli, hh, hu]⟩
          | some u => exact ⟨CliError.MissingPassword, by simp [runCli, hh, hu, h]⟩
      · cases hu : env "SPOTIFY_USERNAME" with
        | none => exact ⟨CliError.MissingUsername, by simp [runCli, htid, hu]⟩
        | some u =>
          cases hp : env "SPOTIFY_PASSWORD" with
          | none => exact ⟨CliError.MissingPassword, by simp [runCli, htid, hu, hp]⟩
          | some p =>
            exact ⟨CliError.InvalidTrackId tid, by simp [runCli, htid, hu, hp, hbad]⟩
  · intro h
    simp [runCli, h]
  · intro tid h hu
    simp [runCli, h, hu]
  · intro tid u h hu hp
    simp [runCli, h, hu, hp]
  · intro tid u p h hu hp hbad
    simp [runCli, h, hu, hp, hbad]
  · intro t h
    have h3 : some 'I' = (CliError.message CliError.MissingTrackId).data.head? := by
      rw [← message_invalid_head t, h]
    exact absurd h3.symm (by decide)
  · intro t h
    have h3 : some 'I' = (CliError.message CliError.MissingUsername).data.head? := by
      rw [← message_invalid_head t, h]
    exact absurd h3.symm (by decide)
  · intro t h
    have h3 : some 'I' = (CliError.message CliError.MissingPassword).data.head? := by
      rw [← message_invalid_head t, h]
    exact absurd h3.symm (by decide)

/-- Witness for C9: concrete argument vectors and environments hitting each
of the four failure modes, plus a concrete message-distinctness instance. -/
theorem cli_run_fails_iff_witness :
    runCli ["psst-cli"] (fun _ => some "x") = Except.error CliError.MissingTrackId ∧
    runCli ["psst-cli", "abc"] (fun k => if k = "SPOTIFY_USERNAME" then none else some "x") =
      Except.error CliError.MissingUsername ∧
    runCli ["psst-cli", "abc"] (fun k => if k = "SPOTIFY_PASSWORD" then none else some "x") =
      Except.error CliError.MissingPassword ∧
    runCli ["psst-cli", "@bad"] (fun _ => some "x") =
      Except.error (CliError.InvalidTrackId "@bad") ∧
    CliError.message (CliError.InvalidTrackId "@bad") ≠
      CliError.message CliError.MissingTrackId :=
  ⟨(cli_run_fails_iff ["psst-cli"] (fun _ => some "x")).2.1 (by decide),
   (cli_run_fails_iff ["psst-cli", "abc"] _).2.2.1 "abc" (by decide) (by decide),
   (cli_run_fails_iff ["psst-cli", "abc"] _).2.2.2.1 "abc" "x" (by decide) (by decide)
     (by decide),
   (cli_run_fails_iff ["psst-cli", "@bad"] _).2.2.2.2.1 "@bad" "x" "x" (by decide)
     (by decide) (by decide) (by decide),
   (cli_run_fails_iff ["psst-cli"] (fun _ => some "x")).2.2.2.2.2.1 "@bad"⟩

/-- Modular exponentiation by repeated squaring; the fuel argument makes the
recursion structural (it strictly bounds the exponent). -/
def powModAux : Nat → Nat → Nat → Nat → Nat
  | 0, _, _, m => 1 % m
  | f + 1, b, e, m =>
    if e = 0 then 1 % m
    else
      let r := powModAux f (b * b % m) (e / 2) m
      if e % 2 = 1 then r * b % m else r

/-- `powMod b e m` computes `b ^ e % m` without materializing `b ^ e`. -/
def powMod (b e m : Nat) : Nat := powModAux (e + 1) b e m

theorem powModAux_correct :
    ∀ f e, e < 2 ^ f → ∀ b m, powModAux f b e m = b ^ e % m := by
  intro f
  induction f with
  | zero =>
    intro e he b m
    have h0 : e = 0 := by omega
    subst h0
    simp [powModAux]
  | succ f ih =>
    intro e he b m
    by_cases h0 : e = 0
    · subst h0
      simp [powModAux]
    · have hdiv : e / 2 < 2 ^ f := by
        have : 2 ^ (f + 1) = 2 ^ f * 2 := by ring
        omega
      have hr : powModAux f (b * b % m) (e / 2) m = (b * b) ^ (e / 2) % m := by
        rw [ih (e / 2) hdiv, ← Nat.pow_mod]
      have hbb : (b * b) ^ (e / 2) = b ^ (2 * (e / 2)) := by
        rw [Nat.pow_mul, Nat.pow_two]
      simp only [powModAux, if_neg h0, hr]
      by_cases hodd : e % 2 = 1
      · rw [if_pos hodd, Nat.mod_mul_mod, hbb, ← Nat.pow_succ]
        have h2 : (2 * (e / 2)).succ = e := by omega
        rw [h2]
      · rw [if_neg hodd]
        rw [hbb]
        have : 2 * (e / 2) = e := by omega
        rw [this]

theorem powMod_correct (b e m : Nat) : powMod b e m = b ^ e % m :=
  powModAux_correct (e + 1) e
    (Nat.lt_trans (Nat.lt_two_pow e) (Nat.pow_lt_pow_succ (by omega))) b m

/-- Modelled from the spec: the fixed large Diffie-Hellman prime (§4.3); the
96-byte prime of the protocol is the 768-bit Oakley group (RFC 2409 group 1),
matching the test suite's "the DH prime is 96 bytes". -/
def dhPrime : Nat :=
  0xFFFFFFFFFFFFFFFFC90FDAA22168C234C4C6628B80DC1CD129024E088A67CC74020BBEA63B139B22514A08798E3404DDEF9519B3CD3A431B302B0A6DF25F14374FE1356D6D51C245E485B576625E7EC6F44C42E9A63A3620FFFFFFFFFFFFFFFF

/-- Modelled from the spec: the fixed generator of the DH group (§4.3). -/
def dhGenerator : Nat := 2

/-- Modelled from the spec: a local DH keypair (`DHLocalKeys` in
`psst-core/src/connection/diffie_hellman.rs`, absent from the tree). The
private key is the randomly generated exponent; `random()` is modelled by
quantifying over it. Keys are byte vectors in the source, embedded as the
naturals they encode big-endian. -/
structure DHLocalKeys where
  private_key : Nat

/-- Modelled from the spec: the public key is `g ^ private mod p` (§4.3). -/
def DHLocalKeys.public_key (k : DHLocalKeys) : Nat :=
  powMod dhGenerator k.private_key dhPrime

/-- Modelled from the spec: the shared secret is
`remote_public ^ private mod p` (§4.3). -/
def DHLocalKeys.shared_secret (k : DHLocalKeys) (remote_key : Nat) : Nat :=
  powMod remote_key k.private_key dhPrime

/-- C2 (amended): DH key agreement is symmetric — the two sides compute
identical shared secrets from swapped inputs — and deterministic: the shared
secret depends only on the local private key and the remote public key. (The
claim's unconditional distinctness of public keys and of shared secrets holds
only with overwhelming probability for random keys, not universally.) -/
theorem dh_shared_secret_symmetric (a b : DHLocalKeys) (r : Nat) :
    a.shared_secret b.public_key = b.shared_secret a.public_key ∧
    (a.private_key = b.private_key → a.shared_secret r = b.shared_secret r) := by
  constructor
  · unfold DHLocalKeys.shared_secret DHLocalKeys.public_key
    rw [powMod_correct, powMod_correct, powMod_correct, powMod_correct]
    rw [← Nat.pow_mod, ← Nat.pow_mod, ← Nat.pow_mul, ← Nat.pow_mul,
      Nat.mul_comm b.private_key a.private_key]
  · intro h
    unfold DHLocalKeys.shared_secret
    rw [h]

/-- Witness for C2's amended theorem at concrete keypairs. -/
theorem dh_shared_secret_symmetric_witness :
    DHLocalKeys.shared_secret ⟨3⟩ (DHLocalKeys.public_key ⟨5⟩) =
      DHLocalKeys.shared_secret ⟨5⟩ (DHLocalKeys.public_key ⟨3⟩) ∧
    ((3 : Nat) = 3 ∧
      DHLocalKeys.shared_secret ⟨3⟩ 9 = DHLocalKeys.shared_secret ⟨3⟩ 9) :=
  ⟨(dh_shared_secret_symmetric ⟨3⟩ ⟨5⟩ 9).1,
   rfl, (dh_shared_secret_symmetric ⟨3⟩ ⟨3⟩ 9).2 rfl⟩

/-- Counterexample for C2 as stated: with local private exponent 2, the two
distinct remote public keys `2` and `p - 2` yield the same shared secret
(`(p - 2)^2 ≡ 2^2 mod p`), so "different remote public keys yield different
shared secrets" fails unconditionally. -/
theorem dh_distinct_secrets_counterexample :
    ¬ (∀ (a b : DHLocalKeys) (r r' : Nat),
        (a.shared_secret b.public_key = b.shared_secret a.public_key) ∧
        (a.private_key ≠ b.private_key → a.public_key ≠ b.public_key) ∧
        (a.shared_secret r = a.shared_secret r) ∧
        (r ≠ r' → a.shared_secret r ≠ a.shared_secret r')) := by
  intro h
  have h4 := (h ⟨2⟩ ⟨2⟩ 2 (dhPrime - 2)).2.2.2
  exact h4 (by decide) (by decide)

end Psst
